import Mathlib

/-!
Verification of the Olive `Engine` (olive/engine/engine.py) against its
natural-language specification.

The definitions below are a shallow embedding of the engine source:
pure helpers become Lean functions, the on-disk cache and the in-memory
counters become an explicit `EngineState` threaded through the step
functions, python exceptions become `Except` errors, and external
collaborators (the pass host, the evaluator target, the model factory)
become oracle parameters.  Machine floats never matter for the claims at
hand, so metric values are rationals.
-/

namespace OliveEngine

/-! ## Models and their cache sidecars

`PRUNED_CONFIG` is the string sentinel the engine compares models against;
a model is therefore either a real Olive model (held abstractly by its
serialized configuration, an opaque `Nat`) or the pruned sentinel. -/

/-- A model value as the engine holds it: a real model (abstracted by its
serialized json) or the `PRUNED_CONFIG` sentinel string. -/
inductive CachedModel where
  | real (config : Nat)
  | pruned
deriving DecidableEq, Repr

/-- The body of a `models/<id>.json` sidecar: the empty json object `{}`
(written for `PRUNED_CONFIG`) or a model json. -/
inductive MJson where
  | emptyObj
  | obj (config : Nat)
deriving DecidableEq, Repr

/-- `_cache_model` body: `{}` for the pruned sentinel, `model.to_json()`
otherwise (engine.py lines 669-672). -/
def cacheModelJson : CachedModel → MJson
  | .pruned => .emptyObj
  | .real c => .obj c

/-- `_load_model` rehydration: the empty object means `PRUNED_CONFIG`,
anything else goes through the model factory (engine.py lines 692-696). -/
def decodeModel : MJson → CachedModel
  | .emptyObj => .pruned
  | .obj c => .real c

theorem decodeModel_cacheModelJson (m : CachedModel) :
    decodeModel (cacheModelJson m) = m := by
  cases m <;> rfl

theorem cacheModelJson_decodeModel (j : MJson) :
    cacheModelJson (decodeModel j) = j := by
  cases j <;> rfl

/-! ## Association-list lookup (python dict / file lookup) -/

/-- First-match key lookup in an association list; prepending a pair acts
like a python dict insert / a file overwrite. -/
def lookupKV {α β : Type} [DecidableEq α] (k : α) : List (α × β) → Option β
  | [] => none
  | (k', v) :: rest => if k = k' then some v else lookupKV k rest

theorem lookupKV_cons {α β : Type} [DecidableEq α] (k k' : α) (v : β)
    (l : List (α × β)) :
    lookupKV k ((k', v) :: l) = if k = k' then some v else lookupKV k l := rfl

/-! ## Model number allocation

`_get_new_model_number` (engine.py lines 647-656) loops: take the current
counter value, bump the counter, and stop as soon as no `models/<N>_*`
entry exists on disk.  The disk contents are the list of leading numbers
of the entries of `models/`. -/

/-- The scan loop of `_get_new_model_number`: starting at `c`, return the
first number with no `models/<N>_*` entry.  `fuel` bounds the loop; any
fuel above the number of distinct taken numbers at or after `c` is enough. -/
def findFree : Nat → List Nat → Nat → Nat
  | 0, _, c => c
  | fuel + 1, disk, c => if c ∈ disk then findFree fuel disk (c + 1) else c

/-- `_get_new_model_number`: returns the allocated number together with the
updated in-memory counter (`self._new_model_number`, which ends one past
the returned number). -/
def getNewModelNumber (counter : Nat) (disk : List Nat) : Nat × Nat :=
  let n := findFree (disk.length + 1) disk counter
  (n, n + 1)

/-- Counter initialization in `Engine.initialize` (engine.py lines 167-174):
`0` for an empty `models/` directory, one past the maximum leading number
otherwise.  The glob `*_*` sees sidecar files and bare output directories
alike. -/
def initModelNumber (disk : List Nat) : Nat :=
  if disk = [] then 0 else disk.foldr Nat.max 0 + 1

theorem findFree_ge (fuel : Nat) (disk : List Nat) :
    ∀ c, c ≤ findFree fuel disk c := by
  induction fuel with
  | zero => intro c; exact Nat.le_refl c
  | succ fuel ih =>
    intro c
    unfold findFree
    by_cases h : c ∈ disk
    · rw [if_pos h]
      exact Nat.le_trans (Nat.le_succ c) (ih (c + 1))
    · rw [if_neg h]

theorem countGe_lt_of_mem {c : Nat} {disk : List Nat} (h : c ∈ disk) :
    disk.countP (fun x => c + 1 ≤ x) < disk.countP (fun x => c ≤ x) := by
  induction disk with
  | nil => cases h
  | cons x rest ih =>
    rw [List.countP_cons, List.countP_cons]
    by_cases hx : x = c
    · subst hx
      have mono : rest.countP (fun y => x + 1 ≤ y) ≤ rest.countP (fun y => x ≤ y) := by
        apply List.countP_mono_left
        intro y _ hy
        simp only [decide_eq_true_eq] at hy ⊢
        omega
      have h1 : (decide (x + 1 ≤ x)) = false := by simp
      have h2 : (decide (x ≤ x)) = true := by simp
      rw [h1, h2]
      simp only [if_true, if_false, Bool.false_eq_true, reduceIte]
      omega
    · have hr : c ∈ rest := by
        cases h with
        | head => exact absurd rfl hx
        | tail _ h => exact h
      have := ih hr
      have hsplit : (if decide (c + 1 ≤ x) = true then 1 else 0) ≤
          (if decide (c ≤ x) = true then 1 else 0) := by
        by_cases hcx : c + 1 ≤ x
        · have h2 : c ≤ x := by omega
          simp [hcx, h2]
        · simp [hcx]
      omega

theorem findFree_not_mem (fuel : Nat) (disk : List Nat) :
    ∀ c, disk.countP (fun x => c ≤ x) < fuel →
      findFree fuel disk c ∉ disk := by
  induction fuel with
  | zero => intro c h; omega
  | succ fuel ih =>
    intro c h
    unfold findFree
    by_cases hc : c ∈ disk
    · rw [if_pos hc]
      apply ih
      have := countGe_lt_of_mem hc
      omega
    · rw [if_neg hc]
      exact hc

theorem getNewModelNumber_fresh (counter : Nat) (disk : List Nat) :
    (getNewModelNumber counter disk).1 ∉ disk := by
  unfold getNewModelNumber
  apply findFree_not_mem
  have : disk.countP (fun x => counter ≤ x) ≤ disk.length :=
    List.countP_le_length _
  omega

theorem getNewModelNumber_ge (counter : Nat) (disk : List Nat) :
    counter ≤ (getNewModelNumber counter disk).1 := by
  unfold getNewModelNumber
  exact findFree_ge _ _ _

theorem getNewModelNumber_snd (counter : Nat) (disk : List Nat) :
    (getNewModelNumber counter disk).2 = (getNewModelNumber counter disk).1 + 1 := rfl

/-- The numbers returned by successive `_get_new_model_number` calls within
one engine run; the disk contents may change arbitrarily between calls
(models are cached, crashed output directories may appear). -/
def allocSeq : Nat → List (List Nat) → List Nat
  | _, [] => []
  | c, d :: ds => (getNewModelNumber c d).1 :: allocSeq (getNewModelNumber c d).2 ds

theorem allocSeq_ge (ds : List (List Nat)) :
    ∀ c x, x ∈ allocSeq c ds → c ≤ x := by
  induction ds with
  | nil => intro c x hx; cases hx
  | cons d ds ih =>
    intro c x hx
    rcases hx with _ | ⟨_, hx⟩
    · exact getNewModelNumber_ge c d
    · have h1 := ih (getNewModelNumber c d).2 x hx
      have h2 := getNewModelNumber_ge c d
      rw [getNewModelNumber_snd] at h1
      omega

theorem allocSeq_pairwise (ds : List (List Nat)) :
    ∀ c, (allocSeq c ds).Pairwise (· < ·) := by
  induction ds with
  | nil => intro c; exact List.Pairwise.nil
  | cons d ds ih =>
    intro c
    refine List.Pairwise.cons ?_ (ih _)
    intro x hx
    have := allocSeq_ge ds (getNewModelNumber c d).2 x hx
    rw [getNewModelNumber_snd] at this
    omega

theorem le_foldr_max {n : Nat} {l : List Nat} (h : n ∈ l) :
    n ≤ l.foldr Nat.max 0 := by
  induction l with
  | nil => cases h
  | cons x rest ih =>
    rcases h with _ | ⟨_, h⟩
    · exact Nat.le_max_left _ _
    · exact Nat.le_trans (ih h) (Nat.le_max_right _ _)

theorem initModelNumber_gt {disk : List Nat} {n : Nat} (h : n ∈ disk) :
    n < initModelNumber disk := by
  unfold initModelNumber
  have hne : disk ≠ [] := by
    intro he; rw [he] at h; cases h
  rw [if_neg hne]
  have := le_foldr_max h
  omega

/-! ## The engine cache state and `_run_pass`

The cache directory and in-memory counters, threaded explicitly:
`runs` holds the parsed `runs/<...>.json` files keyed by
`(pass_name, input_model_number, pass_config, accelerator?)`; `models`
holds the readable `models/<id>.json` sidecars; `counter` is
`self._new_model_number`; `disk` the leading numbers of `models/*_*`
entries. -/

/-- Key of a run json: `(pass_name, input_model_number, pass_config_hash,
accelerator?)`; the accelerator component is `none` for an accelerator
agnostic pass (engine.py `get_run_json_path`). -/
abbrev RunKey := String × String × Nat × Option String

structure EngineState where
  runs : List (RunKey × String)
  models : List (String × MJson)
  counter : Nat
  disk : List Nat
deriving DecidableEq, Repr

/-- The data of a pass instance at a fixed search point: its class name,
whether `is_accelerator_agnostic` holds, whether `validate_search_point`
accepts the point, and the serialized pass config
(`serialize_config(config_at_search_point(point))`, held abstractly, so
that equal values model equal config hashes). -/
structure PassInfo where
  name : String
  agnostic : Bool
  validPoint : Bool
  config : Nat
deriving DecidableEq, Repr

/-- What `host.run_pass` does when invoked: return a model, raise the typed
`OlivePassException`, raise one of the whitelisted
`EXCEPTIONS_TO_RAISE = (AttributeError, ImportError, TypeError,
ValueError)`, or raise any other exception. -/
inductive HostOutcome where
  | ok (m : CachedModel)
  | oliveExc
  | raiseExc
  | otherExc
deriving DecidableEq, Repr

/-- A python exception escaping `_run_pass`: one of the whitelisted kinds,
or any other kind. -/
inductive PyExc where
  | fatalKind
  | otherKind
deriving DecidableEq, Repr

/-- `input_model_id.split("_")[0]`: the characters before the first
underscore. -/
def firstToken (s : String) : String :=
  String.mk (s.data.takeWhile fun c => c ≠ '_')

def runKeyFor (p : PassInfo) (inputId : String) (accel : String) : RunKey :=
  (p.name, firstToken inputId, p.config,
    if p.agnostic then none else some accel)

/-- The derived model id
`<N>_<PassName>-<InputNumber>-<ConfigHash>[-<AcceleratorSpec>]`
(engine.py lines 869-878). -/
def outputIdFor (n : Nat) (p : PassInfo) (inputId : String) (accel : String) : String :=
  toString n ++ "_" ++ p.name ++ "-" ++ firstToken inputId ++ "-" ++
    toString p.config ++ (if p.agnostic then "" else "-" ++ accel)

/-- `_load_run`: the cached `output_model_id` when the run json exists and
parses, else `none` (engine.py lines 775-791). -/
def _load_run (s : EngineState) (key : RunKey) : Option String :=
  lookupKV key s.runs

/-- `_load_model`: `none` when the sidecar cannot be read or parsed,
otherwise the decoded sidecar (engine.py lines 680-696). -/
def _load_model (s : EngineState) (id : String) : Option CachedModel :=
  (lookupKV id s.models).map decodeModel

/-- `_cache_model`: write the sidecar (engine.py lines 664-678). -/
def _cache_model (s : EngineState) (m : CachedModel) (id : String) : EngineState :=
  { s with models := (id, cacheModelJson m) :: s.models }

/-- `_cache_run`: write the run json (engine.py lines 750-773). -/
def _cache_run (s : EngineState) (key : RunKey) (outId : String) : EngineState :=
  { s with runs := (key, outId) :: s.runs }

structure RunPassResult where
  res : Except PyExc (CachedModel × String)
  state : EngineState
  hostInvoked : Bool
deriving Repr

/-- Tail of the `_run_pass` miss path once the output model is known:
`_cache_model`, `_cache_run`, return (engine.py lines 908-922). -/
def runPassFinish (key : RunKey) (outId : String) (out : CachedModel)
    (invoked : Bool) (s : EngineState) : RunPassResult :=
  ⟨.ok (out, outId), _cache_run (_cache_model s out outId) key outId, invoked⟩

/-- The branch ladder of the `_run_pass` miss path once the fresh output
id is composed: prune without invoking the host on an invalid search point
when the search strategy is enabled, otherwise invoke the host and contain
or propagate its failures per the `try/except` ladder of engine.py lines
883-906. -/
def runPassMissCore (noSearch : Bool) (p : PassInfo) (key : RunKey)
    (outId : String) (hres : HostOutcome) (s1 : EngineState) : RunPassResult :=
  if p.validPoint = false ∧ noSearch = false then
    runPassFinish key outId .pruned false s1
  else
    match hres with
    | .ok m => runPassFinish key outId m true s1
    | .oliveExc => runPassFinish key outId .pruned true s1
    | .raiseExc => ⟨.error .fatalKind, s1, true⟩
    | .otherExc =>
      if noSearch then ⟨.error .otherKind, s1, true⟩
      else runPassFinish key outId .pruned true s1

/-- The cache-miss path of `_run_pass` (engine.py lines 865-922): allocate
a model number (the counter advances and the created output directory puts
the number on disk), then run the branch ladder. -/
def runPassMiss (noSearch : Bool) (p : PassInfo) (inputId : String)
    (accel : String) (hres : HostOutcome) (s : EngineState) : RunPassResult :=
  runPassMissCore noSearch p (runKeyFor p inputId accel)
    (outputIdFor (getNewModelNumber s.counter s.disk).1 p inputId accel) hres
    { s with counter := (getNewModelNumber s.counter s.disk).2,
             disk := (getNewModelNumber s.counter s.disk).1 :: s.disk }

/-- `_run_pass` (engine.py lines 830-922): probe the run cache; on a hit
whose model sidecar loads, return the cached output without touching the
host; otherwise fall to the miss path. -/
def _run_pass (noSearch : Bool) (p : PassInfo) (inputId : String)
    (accel : String) (hres : HostOutcome) (s : EngineState) : RunPassResult :=
  match _load_run s (runKeyFor p inputId accel) with
  | some outId =>
    match _load_model s outId with
    | some m => ⟨.ok (m, outId), s, false⟩
    | none => runPassMiss noSearch p inputId accel hres s
  | none => runPassMiss noSearch p inputId accel hres s

/-! ## Accelerator-spec resolution (`Engine.__init__`, engine.py lines 99-128)

Devices are the lowercased accelerator strings of the target; execution
providers are opaque strings.  `AcceleratorLookup
.get_execution_providers_for_device` lives outside the engine source and
is an oracle parameter `supported`. -/

/-- `str.lower()`, character by character (extensionally `String.toLower`,
implemented structurally over the character list). -/
def strToLower (s : String) : String :=
  String.mk (s.data.map Char.toLower)

structure ResolverState where
  notSupported : List String
  processed : List String
  specs : List (String × String)
deriving Repr

/-- One iteration of the inner `for ep in eps` loop (engine.py lines
113-121).  Note that the `CPUExecutionProvider`-on-non-cpu-device branch
does not mark the provider processed. -/
def processEP (device : String) (supportedEps : List String)
    (isCpuAvailable : Bool) (st : ResolverState) (ep : String) : ResolverState :=
  if ep ∉ supportedEps then
    { st with notSupported := ep :: st.notSupported,
              processed := ep :: st.processed }
  else if ep = "CPUExecutionProvider" ∧ device ≠ "cpu" ∧ isCpuAvailable = true then
    st
  else
    { st with specs := st.specs ++ [(device, ep)],
              processed := ep :: st.processed }

/-- One iteration of the outer `for accelerator in accelerators` loop:
the providers still unprocessed are filtered out once, up front, then
each is examined (engine.py lines 109-121). -/
def processDevice (eps : List String) (supported : String → List String)
    (isCpuAvailable : Bool) (st : ResolverState) (accelerator : String) :
    ResolverState :=
  let device := strToLower accelerator
  (eps.filter fun e => decide (e ∉ st.processed)).foldl
    (processEP device (supported device) isCpuAvailable) st

/-- The flattened `self.accelerator_specs` list computed at construction. -/
def resolveAcceleratorSpecs (accelerators : List String) (eps : List String)
    (supported : String → List String) : List (String × String) :=
  let isCpuAvailable := decide ("cpu" ∈ accelerators.map strToLower)
  (accelerators.foldl (processDevice eps supported isCpuAvailable)
    ⟨[], [], []⟩).specs

/-- The construction-time check `assert self.accelerator_specs, ...`
(engine.py line 123): an empty resolved list is a fatal error. -/
def initAcceleratorSpecs (accelerators : List String) (eps : List String)
    (supported : String → List String) : Except String (List (String × String)) :=
  let specs := resolveAcceleratorSpecs accelerators eps supported
  if specs = [] then .error "No valid accelerator specified for target system."
  else .ok specs

/-! ## Goal resolution (`resolve_goals`, engine.py lines 561-630) -/

inductive GoalType where
  | threshold
  | maxDegradation
  | minImprovement
  | percentMaxDegradation
  | percentMinImprovement
deriving DecidableEq, Repr

structure MetricGoal where
  type : GoalType
  value : ℚ
deriving DecidableEq, Repr

/-- One sub-metric as `resolve_goals` consumes it: a name, a priority, a
comparison direction and an optional goal. -/
structure SubTypeInfo where
  name : String
  priority : Int
  higher_is_better : Bool
  goal : Option MetricGoal
deriving DecidableEq, Repr

structure Metric where
  name : String
  sub_types : List SubTypeInfo
deriving DecidableEq, Repr

/-- Modelled from the spec: `joint_metric_key` of the evaluator module
(outside the engine source) joins a metric name and a sub-metric name into
the key used by goal and objective mappings. -/
def joint_metric_key (metricName subName : String) : String :=
  metricName ++ "-" ++ subName

/-- A python exception escaping `resolve_goals`: the `AttributeError` of
reading `.type` on a `None` goal in the resolution loop, or the
`assert self.evaluator_config is not None` failure. -/
inductive GoalErr where
  | attributeError
  | assertionError
deriving DecidableEq, Repr

/-- The per-kind threshold formula of engine.py lines 612-624, applied to
the baseline value of the sub-metric and the `1 if higher_is_better else
-1` multiplier. -/
def resolved_goal_value (baseline : ℚ) (multiplier : Int) (g : MetricGoal) : ℚ :=
  match g.type with
  | .threshold => g.value
  | .maxDegradation => baseline - multiplier * g.value
  | .minImprovement => baseline + multiplier * g.value
  | .percentMaxDegradation => baseline * (1 - multiplier * g.value / 100)
  | .percentMinImprovement => baseline * (1 + multiplier * g.value / 100)

/-- The scan of one metric's sub-goals by the baseline-deciding loop
(engine.py lines 585-599): a sub-metric without a goal breaks the scan, a
non-threshold goal triggers the baseline evaluation. -/
def metricNeedsBaseline : List SubTypeInfo → Bool
  | [] => false
  | s :: rest =>
    match s.goal with
    | none => false
    | some g => if g.type = GoalType.threshold then metricNeedsBaseline rest else true

def needsBaseline (metrics : List Metric) : Bool :=
  metrics.any fun m => metricNeedsBaseline m.sub_types

/-- The resolution loop over one metric's sub-metrics (engine.py lines
609-626); `baseline.get_value` is the oracle `baseline`.  A sub-metric
without a goal raises `AttributeError` at `goal.type`. -/
def resolveSubGoals (baseline : String → String → ℚ) (metricName : String) :
    List SubTypeInfo → Except GoalErr (List (String × ℚ))
  | [] => .ok []
  | s :: rest =>
    match s.goal with
    | none => .error .attributeError
    | some g =>
      let multiplier : Int := if s.higher_is_better then 1 else -1
      match resolveSubGoals baseline metricName rest with
      | .error e => .error e
      | .ok tail =>
        .ok ((joint_metric_key metricName s.name,
              resolved_goal_value (baseline metricName s.name) multiplier g) :: tail)

def resolveAllGoals (baseline : String → String → ℚ) :
    List Metric → Except GoalErr (List (String × ℚ))
  | [] => .ok []
  | m :: rest =>
    match resolveSubGoals baseline m.name m.sub_types with
    | .error e => .error e
    | .ok head =>
      match resolveAllGoals baseline rest with
      | .error e => .error e
      | .ok tail => .ok (head ++ tail)

instance exceptDecEq {ε α : Type} [DecidableEq ε] [DecidableEq α] :
    DecidableEq (Except ε α) := fun x y =>
  match x, y with
  | .ok a, .ok b =>
    if h : a = b then isTrue (by rw [h])
    else isFalse (by intro he; cases he; exact h rfl)
  | .error a, .error b =>
    if h : a = b then isTrue (by rw [h])
    else isFalse (by intro he; cases he; exact h rfl)
  | .ok _, .error _ => isFalse (by intro he; cases he)
  | .error _, .ok _ => isFalse (by intro he; cases he)

structure ResolveGoalsResult where
  result : Except GoalErr (List (String × ℚ))
  baselineEvaluated : Bool
deriving DecidableEq, Repr

/-- `resolve_goals` (engine.py lines 561-630): scan for a non-threshold
goal; when none is found `baseline` stays `None` and the function returns
the empty dict; otherwise assert a default evaluator, evaluate the input
model once, and resolve every goal to a threshold. -/
def resolve_goals (metrics : List Metric) (hasEvaluator : Bool)
    (baseline : String → String → ℚ) : ResolveGoalsResult :=
  if needsBaseline metrics then
    if hasEvaluator then ⟨resolveAllGoals baseline metrics, true⟩
    else ⟨.error .assertionError, false⟩
  else ⟨.ok [], false⟩

/-! ## The per-accelerator loop of `Engine.run` (engine.py lines 283-340) -/

/-- The outcome of running one accelerator spec's body (setup, hash,
no-search / search / evaluation-only execution): a value, a whitelisted
`EXCEPTIONS_TO_RAISE` exception, or any other exception. -/
inductive AccelOutcome (α : Type) where
  | ok (v : α)
  | raiseExc
  | otherExc
deriving DecidableEq, Repr

/-- The `for accelerator_spec in self.accelerator_specs` loop with its
`except EXCEPTIONS_TO_RAISE: raise / except Exception: logger.warning`
ladder (engine.py lines 291-327); `outputs` collects per-spec results. -/
def runAccelLoop {α : Type} (body : String → AccelOutcome α) :
    List String → Except Unit (List (String × α))
  | [] => .ok []
  | spec :: rest =>
    match body spec with
    | .ok v =>
      match runAccelLoop body rest with
      | .ok tail => .ok ((spec, v) :: tail)
      | .error e => .error e
    | .raiseExc => .error ()
    | .otherExc => runAccelLoop body rest

/-! ## No-search registration and execution guards
(`register_pass` lines 242-243, `run_no_search` lines 369-372) -/

inductive NoSearchError where
  | valueError (passName : String)
  | keyError
deriving DecidableEq, Repr

/-- The guard of `register_pass` (engine.py lines 242-243): with search
disabled, a pass with a non-empty search space raises `ValueError`. -/
def register_pass_check (noSearch : Bool) (name : String)
    (searchSpaceSize : Nat) : Except NoSearchError Unit :=
  if noSearch ∧ 0 < searchSpaceSize then .error (.valueError name) else .ok ()

/-- `setup_passes` (engine.py lines 342-359): instantiate and register
every configured pass in declaration order; registration errors abort. -/
def setup_passes (noSearch : Bool) :
    List (String × Nat) → Except NoSearchError (List (String × Nat))
  | [] => .ok []
  | (n, sz) :: rest =>
    match register_pass_check noSearch n sz with
    | .error e => .error e
    | .ok _ =>
      match setup_passes noSearch rest with
      | .ok tail => .ok ((n, sz) :: tail)
      | .error e => .error e

/-- The in-function guard of `run_no_search` (engine.py lines 369-372):
for a registered pass with a non-empty search space it reads
`pass_item["name"]`, a key never stored by `register_pass`, so the
statement raises `KeyError` before reaching its own `raise ValueError`. -/
def run_no_search_guard (passes : List (String × Nat)) : Except NoSearchError Unit :=
  if passes.any (fun q => 0 < q.2) then .error .keyError else .ok ()

/-- The no-search step of `Engine.run` for one accelerator: `setup_passes`
(line 285) runs before `run_no_search` (line 304), whose own guard runs
before any pass of the step; the returned list holds the passes that then
execute, in registration order. -/
def no_search_step (noSearch : Bool) (cfgs : List (String × Nat)) :
    Except NoSearchError (List String) :=
  match setup_passes noSearch cfgs with
  | .error e => .error e
  | .ok ps =>
    match run_no_search_guard ps with
    | .error e => .error e
    | .ok _ => .ok (ps.map Prod.fst)

/-! ## Output materialization in `run_no_search` (engine.py lines 405-445) -/

/-- Python string truthiness of an optional name: `None` and `""` are
falsy. -/
def truthyStr : Option String → Bool
  | none => false
  | some s => s ≠ ""

/-- `pass_output_names` after the two list comprehensions of lines
406-407: `f"{name}_{accelerator_spec}" if name else None`. -/
def passOutputNames (registered : List (Option String)) (spec : String) :
    List (Option String) :=
  registered.map fun n =>
    match n with
    | some nm => if nm ≠ "" then some (nm ++ "_" ++ spec) else none
    | none => none

/-- Lines 409-417: the terminal artifact name; an engine-level
`output_name` overrides, otherwise a falsy terminal name defaults to
`str(accelerator_spec)`. -/
def finalOutputName (names : List (Option String)) (engineName : Option String)
    (spec : String) : Option String :=
  let last := (names.getLast?).getD none
  match engineName with
  | some en =>
    if en ≠ "" then some (en ++ "_" ++ spec)
    else if truthyStr last then last else some spec
  | none => if truthyStr last then last else some spec

/-- The save loop of lines 419-429: each truthy name saves
`<name>_model` via `cache_utils.save_model` (the oracle `save`, returning
the written model json); the last write wins as `output_model_json`. -/
def saveOutputs (names : List (Option String)) (ids : List String)
    (save : String → String → Nat) : Option Nat :=
  (names.zip ids).foldl
    (fun acc q =>
      match q.1 with
      | some nm => if nm ≠ "" then some (save q.2 (nm ++ "_model")) else acc
      | none => acc)
    none

/-- The output materialization of `run_no_search` for an unpruned step:
compute the per-pass artifact names, override the terminal one, save, and
return the terminal `output_model_json` (engine.py lines 405-429 and
438-445; the returned `output` dict is non-`None` exactly when this is). -/
def runNoSearchOutput (registered : List (Option String))
    (engineName : Option String) (spec : String) (ids : List String)
    (save : String → String → Nat) : Option Nat :=
  let names := passOutputNames registered spec
  saveOutputs (names.dropLast ++ [finalOutputName names engineName spec]) ids save

/-! ## Supporting lemmas for the pass executor -/

theorem load_model_inv {s : EngineState} {id : String} {m : CachedModel}
    (h : _load_model s id = some m) :
    lookupKV id s.models = some (cacheModelJson m) := by
  unfold _load_model at h
  cases hl : lookupKV id s.models with
  | none => rw [hl] at h; cases h
  | some j =>
    rw [hl] at h
    simp only [Option.map_some'] at h
    cases h
    rw [cacheModelJson_decodeModel]

theorem run_pass_hit_eq {ns : Bool} {p : PassInfo} {inputId accel : String}
    {hres : HostOutcome} {s : EngineState} {outId : String} {m : CachedModel}
    (hld : _load_run s (runKeyFor p inputId accel) = some outId)
    (hlm : _load_model s outId = some m) :
    _run_pass ns p inputId accel hres s = ⟨.ok (m, outId), s, false⟩ := by
  unfold _run_pass
  simp only [hld, hlm]

theorem run_pass_badSidecar_eq {ns : Bool} {p : PassInfo} {inputId accel : String}
    {hres : HostOutcome} {s : EngineState} {outId : String}
    (hld : _load_run s (runKeyFor p inputId accel) = some outId)
    (hlm : _load_model s outId = none) :
    _run_pass ns p inputId accel hres s = runPassMiss ns p inputId accel hres s := by
  unfold _run_pass
  simp only [hld, hlm]

theorem run_pass_miss_eq {ns : Bool} {p : PassInfo} {inputId accel : String}
    {hres : HostOutcome} {s : EngineState}
    (hld : _load_run s (runKeyFor p inputId accel) = none) :
    _run_pass ns p inputId accel hres s = runPassMiss ns p inputId accel hres s := by
  unfold _run_pass
  simp only [hld]

theorem runPassFinish_run_lookup (key : RunKey) (outId : String)
    (out : CachedModel) (inv : Bool) (s1 : EngineState) :
    lookupKV key (runPassFinish key outId out inv s1).state.runs = some outId := by
  simp [runPassFinish, _cache_run, _cache_model, lookupKV_cons]

theorem runPassFinish_model_lookup (key : RunKey) (outId : String)
    (out : CachedModel) (inv : Bool) (s1 : EngineState) :
    lookupKV outId (runPassFinish key outId out inv s1).state.models =
      some (cacheModelJson out) := by
  simp [runPassFinish, _cache_run, _cache_model, lookupKV_cons]

theorem runPassMissCore_cached {ns : Bool} {p : PassInfo} {key : RunKey}
    {outId : String} {hres : HostOutcome} {s1 : EngineState}
    {m1 : CachedModel} {id1 : String}
    (hok : (runPassMissCore ns p key outId hres s1).res = .ok (m1, id1)) :
    lookupKV key (runPassMissCore ns p key outId hres s1).state.runs = some id1
    ∧ lookupKV id1 (runPassMissCore ns p key outId hres s1).state.models =
        some (cacheModelJson m1) := by
  have finishCase : ∀ out inv,
      (runPassFinish key outId out inv s1).res = Except.ok (m1, id1) →
      lookupKV key (runPassFinish key outId out inv s1).state.runs = some id1
      ∧ lookupKV id1 (runPassFinish key outId out inv s1).state.models =
          some (cacheModelJson m1) := by
    intro out inv h
    simp only [runPassFinish, Except.ok.injEq, Prod.mk.injEq] at h
    obtain ⟨hm, hid⟩ := h
    subst hm; subst hid
    exact ⟨runPassFinish_run_lookup key outId out inv s1,
      runPassFinish_model_lookup key outId out inv s1⟩
  unfold runPassMissCore at hok ⊢
  by_cases hc : p.validPoint = false ∧ ns = false
  · rw [if_pos hc] at hok ⊢
    exact finishCase _ _ hok
  · rw [if_neg hc] at hok ⊢
    cases hres with
    | ok m => exact finishCase _ _ hok
    | oliveExc => exact finishCase _ _ hok
    | raiseExc => cases hok
    | otherExc =>
      by_cases hn : ns = true
      · rw [if_pos hn] at hok
        cases hok
      · rw [if_neg hn] at hok ⊢
        exact finishCase _ _ hok

theorem run_pass_cached {ns : Bool} {p : PassInfo} {inputId accel : String}
    {hres : HostOutcome} {s : EngineState} {m1 : CachedModel} {id1 : String}
    (hok : (_run_pass ns p inputId accel hres s).res = .ok (m1, id1)) :
    lookupKV (runKeyFor p inputId accel)
        (_run_pass ns p inputId accel hres s).state.runs = some id1
    ∧ lookupKV id1 (_run_pass ns p inputId accel hres s).state.models =
        some (cacheModelJson m1) := by
  cases hld : _load_run s (runKeyFor p inputId accel) with
  | some outId =>
    cases hlm : _load_model s outId with
    | some m =>
      rw [run_pass_hit_eq hld hlm] at hok ⊢
      simp only [Except.ok.injEq, Prod.mk.injEq] at hok
      obtain ⟨hm, hid⟩ := hok
      subst hm; subst hid
      exact ⟨hld, load_model_inv hlm⟩
    | none =>
      rw [run_pass_badSidecar_eq hld hlm] at hok ⊢
      exact runPassMissCore_cached hok
  | none =>
    rw [run_pass_miss_eq hld] at hok ⊢
    exact runPassMissCore_cached hok

/-! ## Claim theorems C1, C2 -/

/-- Claim C1: a pass execution that succeeds leaves the run json and the
model sidecar for its `(pass_name, input model number, pass_config,
accelerator?)` key in the cache; any later execution with the same key in
a cache state holding these entries finds the cached run, does not invoke
the host, leaves the state untouched and returns the first execution's
`output_model_id`; and when the run json exists but the model sidecar
cannot be loaded, the execution degrades to a cache miss and the pass is
re-run through the host. -/
theorem pass_cache_reuse
    (ns ns' : Bool) (p : PassInfo) (inputId accel : String)
    (h1 h2 : HostOutcome) (s : EngineState) (m1 : CachedModel) (id1 : String)
    (hok : (_run_pass ns p inputId accel h1 s).res = .ok (m1, id1)) :
    (_load_run (_run_pass ns p inputId accel h1 s).state
        (runKeyFor p inputId accel) = some id1
      ∧ lookupKV id1 (_run_pass ns p inputId accel h1 s).state.models =
          some (cacheModelJson m1))
    ∧ (∀ s' : EngineState,
        _load_run s' (runKeyFor p inputId accel) = some id1 →
        lookupKV id1 s'.models = some (cacheModelJson m1) →
        _run_pass ns' p inputId accel h2 s' = ⟨.ok (m1, id1), s', false⟩)
    ∧ (∀ (s' : EngineState) (oid : String) (m : CachedModel),
        _load_run s' (runKeyFor p inputId accel) = some oid →
        lookupKV oid s'.models = none →
        p.validPoint = true →
        (_run_pass ns' p inputId accel (.ok m) s').hostInvoked = true
          ∧ (_run_pass ns' p inputId accel (.ok m) s').res =
              .ok (m, outputIdFor (getNewModelNumber s'.counter s'.disk).1
                p inputId accel)) := by
  refine ⟨run_pass_cached hok, ?_, ?_⟩
  · intro s' hrun hmod
    have hlm : _load_model s' id1 = some m1 := by
      unfold _load_model
      rw [hmod]
      simp [decodeModel_cacheModelJson]
    exact run_pass_hit_eq hrun hlm
  · intro s' oid m hrun hmod hvalid
    have hlm : _load_model s' oid = none := by
      unfold _load_model
      rw [hmod]
      rfl
    rw [run_pass_badSidecar_eq hrun hlm]
    have hcond : ¬ (p.validPoint = false ∧ ns' = false) := by
      intro hc; rw [hvalid] at hc; cases hc.1
    unfold runPassMiss runPassMissCore
    rw [if_neg hcond]
    exact ⟨rfl, rfl⟩

/-- Witness for C1 at a concrete input: the first execution is a miss that
runs the host and produces model id `0_P-in-7-cpu`; the second execution,
from the state the first left behind, is a pure cache hit. -/
theorem pass_cache_reuse_witness :
    _run_pass false ⟨"P", false, true, 7⟩ "in" "cpu" HostOutcome.otherExc
        (_run_pass false ⟨"P", false, true, 7⟩ "in" "cpu"
          (HostOutcome.ok (CachedModel.real 5)) ⟨[], [], 0, []⟩).state =
      ⟨.ok (CachedModel.real 5, "0_P-in-7-cpu"),
        (_run_pass false ⟨"P", false, true, 7⟩ "in" "cpu"
          (HostOutcome.ok (CachedModel.real 5)) ⟨[], [], 0, []⟩).state, false⟩ := by
  have h := pass_cache_reuse false false ⟨"P", false, true, 7⟩ "in" "cpu"
    (HostOutcome.ok (CachedModel.real 5)) HostOutcome.otherExc
    ⟨[], [], 0, []⟩ (CachedModel.real 5) "0_P-in-7-cpu" (by decide)
  exact h.2.1 _ h.1.1 h.1.2

/-- Counterexample to claim C2 as stated: in no-search mode a typed
`OlivePassException` raised by `host.run_pass` does *not* propagate; the
`except OlivePassException` arm of engine.py lines 893-895 catches it
unconditionally and the step completes with a `PRUNED` output model. -/
theorem no_search_olive_exception_contained :
    (_run_pass true ⟨"Conv", false, true, 3⟩ "m0" "gpu" HostOutcome.oliveExc
        ⟨[], [], 0, []⟩).res = .ok (CachedModel.pruned, "0_Conv-m0-3-gpu")
    ∧ (_run_pass true ⟨"Conv", false, true, 3⟩ "m0" "gpu" HostOutcome.oliveExc
        ⟨[], [], 0, []⟩).hostInvoked = true := by
  constructor
  · decide
  · decide

/-- Claim C2 as amended: in no-search mode an *unexpected* failure of
`host.run_pass` is fatal (the exception propagates out of the step), and a
whitelisted `EXCEPTIONS_TO_RAISE` kind always propagates; but a typed
`OlivePassException` is contained even in no-search mode, producing a
`PRUNED` output.  With search enabled, unexpected failures are contained
as well. -/
theorem no_search_failure_propagation
    (p : PassInfo) (inputId accel : String) (s : EngineState)
    (hmiss : _load_run s (runKeyFor p inputId accel) = none)
    (hvalid : p.validPoint = true) :
    (_run_pass true p inputId accel HostOutcome.otherExc s).res =
        .error PyExc.otherKind
    ∧ (_run_pass true p inputId accel HostOutcome.raiseExc s).res =
        .error PyExc.fatalKind
    ∧ (_run_pass true p inputId accel HostOutcome.oliveExc s).res =
        .ok (CachedModel.pruned,
          outputIdFor (getNewModelNumber s.counter s.disk).1 p inputId accel)
    ∧ (_run_pass false p inputId accel HostOutcome.otherExc s).res =
        .ok (CachedModel.pruned,
          outputIdFor (getNewModelNumber s.counter s.disk).1 p inputId accel) := by
  have hcond : ∀ b : Bool, ¬ (p.validPoint = false ∧ b = false) := by
    intro b hc; rw [hvalid] at hc; cases hc.1
  refine ⟨?_, ?_, ?_, ?_⟩ <;>
    · rw [run_pass_miss_eq hmiss]
      unfold runPassMiss runPassMissCore
      rw [if_neg (hcond _)]
      try rfl

/-- Witness for the amended C2 at a concrete input. -/
theorem no_search_failure_propagation_witness :
    (_run_pass true ⟨"Conv", false, true, 3⟩ "m0" "gpu" HostOutcome.otherExc
        ⟨[], [], 0, []⟩).res = .error PyExc.otherKind :=
  (no_search_failure_propagation ⟨"Conv", false, true, 3⟩ "m0" "gpu"
    ⟨[], [], 0, []⟩ (by decide) (by decide)).1

/-- Claim C9: caching `PRUNED` writes the empty json object as the model
sidecar; loading any model id whose sidecar is the empty object returns
exactly the `PRUNED` sentinel (never a rehydrated model); and loading a
sidecar that cannot be read returns `none` instead of raising. -/
theorem pruned_sidecar_roundtrip :
    (∀ (s : EngineState) (id : String),
      lookupKV id (_cache_model s CachedModel.pruned id).models =
        some MJson.emptyObj)
    ∧ (∀ (s : EngineState) (id : String),
        lookupKV id s.models = some MJson.emptyObj →
        _load_model s id = some CachedModel.pruned)
    ∧ (∀ (s : EngineState) (id : String),
        lookupKV id s.models = none → _load_model s id = none) := by
  refine ⟨?_, ?_, ?_⟩
  · intro s id
    simp [_cache_model, lookupKV_cons, cacheModelJson]
  · intro s id h
    unfold _load_model
    rw [h]
    rfl
  · intro s id h
    unfold _load_model
    rw [h]
    rfl

/-- Witness for C9: caching `PRUNED` under id `3_Q` and loading it back
yields the sentinel. -/
theorem pruned_sidecar_roundtrip_witness :
    _load_model (_cache_model ⟨[], [], 0, []⟩ CachedModel.pruned "3_Q") "3_Q" =
      some CachedModel.pruned :=
  pruned_sidecar_roundtrip.2.1 _ "3_Q" (pruned_sidecar_roundtrip.1 ⟨[], [], 0, []⟩ "3_Q")

/-- Claim C6: the model-number allocator never returns a number already
taken by a `models/<N>_*` entry at the time of the call; successive
returns within one run are strictly increasing (whatever appears on disk
in between); and every return exceeds every number present in `models/`
when the engine was initialized, leftover output directories included. -/
theorem model_number_allocation :
    (∀ (counter : Nat) (disk : List Nat), (getNewModelNumber counter disk).1 ∉ disk)
    ∧ (∀ (ds : List (List Nat)) (c : Nat), (allocSeq c ds).Pairwise (· < ·))
    ∧ (∀ (disk0 : List Nat) (ds : List (List Nat)) (n : Nat), n ∈ disk0 →
        ∀ x ∈ allocSeq (initModelNumber disk0) ds, n < x) := by
  refine ⟨getNewModelNumber_fresh, allocSeq_pairwise, ?_⟩
  intro disk0 ds n hn x hx
  have h1 := allocSeq_ge ds (initModelNumber disk0) x hx
  have h2 := initModelNumber_gt hn
  omega

/-- Witness for C6: with `models/` initially holding numbers 2 and 5, the
counter starts at 6; with 6 then also taken on disk the first allocation
returns 7, above the initial entry 5. -/
theorem model_number_allocation_witness :
    (getNewModelNumber 3 [1, 3, 4]).1 ∉ [1, 3, 4] ∧ (5 : Nat) < 7 :=
  ⟨model_number_allocation.1 3 [1, 3, 4],
    model_number_allocation.2.2 [2, 5] [[6]] 5 (by decide) 7 (by decide)⟩

/-- Claim C4: in the per-accelerator loop of `Engine.run`, a whitelisted
`EXCEPTIONS_TO_RAISE` exception (AttributeError, ImportError, TypeError,
ValueError) escaping one accelerator propagates out of `run`; any other
exception lets the loop proceed, and the outputs mapping collects exactly
the successful accelerators, omitting the failed one. -/
theorem run_exception_routing {α : Type} (specs : List String)
    (body : String → AccelOutcome α) :
    (runAccelLoop body specs = .error () ↔ ∃ s ∈ specs, body s = .raiseExc)
    ∧ ((∀ s ∈ specs, body s ≠ .raiseExc) →
        runAccelLoop body specs = .ok (specs.filterMap fun s =>
          match body s with
          | .ok v => some (s, v)
          | _ => none))
    ∧ (∀ out, runAccelLoop body specs = .ok out →
        ∀ s ∈ specs, body s = .otherExc → ∀ v, (s, v) ∉ out) := by
  have herr : ∀ l : List String,
      (runAccelLoop body l = .error () ↔ ∃ s ∈ l, body s = .raiseExc) := by
    intro l
    induction l with
    | nil => simp [runAccelLoop]
    | cons a rest ih =>
      cases hb : body a with
      | ok v =>
        simp only [runAccelLoop, hb]
        cases hr : runAccelLoop body rest with
        | ok tail =>
          rw [hr] at ih
          simp only [hr]
          constructor
          · intro h; cases h
          · intro h
            exfalso
            rcases h with ⟨s, hs, hraise⟩
            rcases hs with _ | ⟨_, hs⟩
            · rw [hb] at hraise; cases hraise
            · have := ih.mpr ⟨s, hs, hraise⟩
              cases this
        | error e =>
          rw [hr] at ih
          simp only [hr]
          cases e
          constructor
          · intro _
            rcases ih.mp rfl with ⟨s, hs, hraise⟩
            exact ⟨s, List.mem_cons_of_mem a hs, hraise⟩
          · intro _; trivial
      | raiseExc =>
        simp only [runAccelLoop, hb]
        constructor
        · intro _; exact ⟨a, List.mem_cons_self a rest, hb⟩
        · intro _; trivial
      | otherExc =>
        simp only [runAccelLoop, hb]
        rw [ih]
        constructor
        · intro h
          rcases h with ⟨s, hs, hraise⟩
          exact ⟨s, List.mem_cons_of_mem a hs, hraise⟩
        · intro h
          rcases h with ⟨s, hs, hraise⟩
          rcases hs with _ | ⟨_, hs⟩
          · rw [hb] at hraise; cases hraise
          · exact ⟨s, hs, hraise⟩
  have hsucc : ∀ l : List String, (∀ s ∈ l, body s ≠ .raiseExc) →
      runAccelLoop body l = .ok (l.filterMap fun s =>
        match body s with
        | .ok v => some (s, v)
        | _ => none) := by
    intro l
    induction l with
    | nil => intro _; rfl
    | cons a rest ih =>
      intro h
      have hrest := ih fun s hs => h s (List.mem_cons_of_mem a hs)
      cases hb : body a with
      | ok v =>
        simp only [runAccelLoop, hb, hrest, List.filterMap_cons]
      | raiseExc => exact absurd hb (h a (List.mem_cons_self a rest))
      | otherExc =>
        simp only [runAccelLoop, hb, hrest, List.filterMap_cons]
  refine ⟨herr specs, hsucc specs, ?_⟩
  intro out hout s hs hbody v hmem
  have hnoraise : ∀ s' ∈ specs, body s' ≠ .raiseExc := by
    intro s' hs' hraise
    have := (herr specs).mpr ⟨s', hs', hraise⟩
    rw [hout] at this
    cases this
  have := hsucc specs hnoraise
  rw [hout] at this
  cases this
  rcases List.mem_filterMap.mp hmem with ⟨a, _, ha⟩
  cases hba : body a with
  | ok w =>
    rw [hba] at ha
    simp only [Option.some.injEq, Prod.mk.injEq] at ha
    rw [ha.1] at hba
    rw [hbody] at hba
    cases hba
  | raiseExc => rw [hba] at ha; cases ha
  | otherExc => rw [hba] at ha; cases ha

/-- Witness for C4: with `gpu` failing on an unexpected exception, the
loop still succeeds and its outputs map holds only `cpu`, omitting `gpu`. -/
theorem run_exception_routing_witness :
    runAccelLoop
        (fun s => if s = "cpu" then AccelOutcome.ok 1 else AccelOutcome.otherExc)
        ["cpu", "gpu"] = .ok [("cpu", 1)]
    ∧ ("gpu", 1) ∉ [("cpu", 1)] := by
  have h := run_exception_routing ["cpu", "gpu"]
    (fun s => if s = "cpu" then AccelOutcome.ok 1 else AccelOutcome.otherExc)
  have h2 := h.2.1 (by decide)
  refine ⟨by simpa using h2, ?_⟩
  exact h.2.2 _ (by simpa using h2) "gpu" (by decide) (by decide) 1

/-- Claim C8: with search disabled, setting up a registered pass whose
search space is non-empty raises `ValueError` during `setup_passes`
(i.e. in `register_pass`, engine.py lines 242-243), before any pass of the
no-search step runs; when every search space is empty the step proceeds to
run every registered pass in order, so the check is enforced and the
(broken, `KeyError`-raising) in-function guard of `run_no_search` never
fires inside the engine's own flow. -/
theorem no_search_space_guard (cfgs : List (String × Nat)) :
    ((∃ c ∈ cfgs, 0 < c.2) →
      ∃ nm sz, (nm, sz) ∈ cfgs ∧ 0 < sz
        ∧ no_search_step true cfgs = .error (.valueError nm))
    ∧ ((∀ c ∈ cfgs, c.2 = 0) →
        no_search_step true cfgs = .ok (cfgs.map Prod.fst)) := by
  have hsetup : ∀ l : List (String × Nat), (∃ c ∈ l, 0 < c.2) →
      ∃ nm sz, (nm, sz) ∈ l ∧ 0 < sz
        ∧ setup_passes true l = .error (.valueError nm) := by
    intro l
    induction l with
    | nil => intro h; rcases h with ⟨c, hc, _⟩; cases hc
    | cons q rest ih =>
      obtain ⟨n, sz0⟩ := q
      intro h
      by_cases hq : 0 < sz0
      · refine ⟨n, sz0, List.mem_cons_self _ _, hq, ?_⟩
        unfold setup_passes register_pass_check
        rw [if_pos ⟨rfl, hq⟩]
      · have hex : ∃ c ∈ rest, 0 < c.2 := by
          rcases h with ⟨c, hc, hcpos⟩
          rcases hc with _ | ⟨_, hc⟩
          · exact absurd hcpos hq
          · exact ⟨c, hc, hcpos⟩
        rcases ih hex with ⟨nm, sz, hmem, hpos, herr⟩
        refine ⟨nm, sz, List.mem_cons_of_mem _ hmem, hpos, ?_⟩
        unfold setup_passes register_pass_check
        have hneg : ¬ (true = true ∧ 0 < sz0) := fun hx => hq hx.2
        rw [if_neg hneg, herr]
  have hsetup_ok : ∀ l : List (String × Nat), (∀ c ∈ l, c.2 = 0) →
      setup_passes true l = .ok l := by
    intro l
    induction l with
    | nil => intro _; rfl
    | cons q rest ih =>
      obtain ⟨n, sz0⟩ := q
      intro h
      have hz : sz0 = 0 := h (n, sz0) (List.mem_cons_self _ _)
      have hrest := ih fun c hc => h c (List.mem_cons_of_mem _ hc)
      unfold setup_passes register_pass_check
      have hneg : ¬ (true = true ∧ 0 < sz0) := by
        intro hx
        exact absurd hx.2 (by omega)
      rw [if_neg hneg, hrest]
  refine ⟨?_, ?_⟩
  · intro h
    rcases hsetup cfgs h with ⟨nm, sz, hmem, hpos, herr⟩
    refine ⟨nm, sz, hmem, hpos, ?_⟩
    unfold no_search_step
    rw [herr]
  · intro h
    have hany : cfgs.any (fun q => 0 < q.2) = false := by
      rw [List.any_eq_false]
      intro c hc
      have := h c hc
      simp [this]
    have hguard : run_no_search_guard cfgs = .ok () := by
      unfold run_no_search_guard
      rw [hany]
      rfl
    unfold no_search_step
    simp only [hsetup_ok cfgs h]
    simp only [hguard]

/-- Witness for C8: with search disabled, registering pass `A` with a
search space of size 2 raises `ValueError` at setup time; two passes with
empty search spaces run in registration order. -/
theorem no_search_space_guard_witness :
    no_search_step true [("A", 2)] = .error (.valueError "A")
    ∧ no_search_step true [("A", 0), ("B", 0)] = .ok ["A", "B"] := by
  constructor
  · obtain ⟨nm, sz, hmem, hpos, herr⟩ :=
      (no_search_space_guard [("A", 2)]).1 ⟨("A", 2), by simp, by decide⟩
    have heq : nm = "A" ∧ sz = 2 := by simpa using hmem
    exact heq.1 ▸ herr
  · simpa using (no_search_space_guard [("A", 0), ("B", 0)]).2 (by decide)

theorem metricNeedsBaseline_false {subs : List SubTypeInfo}
    (h : ∀ s ∈ subs, ∀ g, s.goal = some g → g.type = GoalType.threshold) :
    metricNeedsBaseline subs = false := by
  induction subs with
  | nil => rfl
  | cons s rest ih =>
    unfold metricNeedsBaseline
    cases hg : s.goal with
    | none => rfl
    | some g =>
      have hthr := h s (List.mem_cons_self _ _) g hg
      show (if g.type = GoalType.threshold then metricNeedsBaseline rest else true) = false
      rw [if_pos hthr]
      exact ih fun s' hs' => h s' (List.mem_cons_of_mem _ hs')

/-- Counterexample to claim C3 as stated: for a single sub-metric whose
goal is `{type: threshold, value: 1/2}`, `resolve_goals` returns the empty
mapping rather than `{accuracy-accuracy_score ↦ 1/2}`: the
`if not baseline: return {}` early return of engine.py lines 600-602
drops threshold goal values when no baseline is computed. -/
theorem threshold_goals_dropped :
    resolve_goals [⟨"accuracy", [⟨"accuracy_score", 1, true,
        some ⟨GoalType.threshold, 1/2⟩⟩]⟩] true (fun _ _ => 0) =
      ⟨.ok [], false⟩
    ∧ resolve_goals [⟨"accuracy", [⟨"accuracy_score", 1, true,
        some ⟨GoalType.threshold, 1/2⟩⟩]⟩] true (fun _ _ => 0) ≠
      ⟨.ok [(joint_metric_key "accuracy" "accuracy_score", 1/2)], false⟩ := by
  constructor
  · rfl
  · intro h
    rw [show resolve_goals [⟨"accuracy", [⟨"accuracy_score", 1, true,
        some ⟨GoalType.threshold, 1/2⟩⟩]⟩] true (fun _ _ => 0) =
      ⟨.ok [], false⟩ from rfl] at h
    cases h

/-- Claim C3 as amended: when every declared sub-metric goal has type
`threshold`, `resolve_goals` performs no baseline evaluation of the input
model and returns the *empty* mapping — the threshold values themselves
are not propagated into the result. -/
theorem threshold_goals_no_baseline
    (metrics : List Metric) (hasEvaluator : Bool)
    (baseline : String → String → ℚ)
    (h : ∀ m ∈ metrics, ∀ s ∈ m.sub_types, ∀ g, s.goal = some g →
      g.type = GoalType.threshold) :
    resolve_goals metrics hasEvaluator baseline = ⟨.ok [], false⟩ := by
  have hnb : needsBaseline metrics = false := by
    unfold needsBaseline
    rw [List.any_eq_false]
    intro m hm
    simp [metricNeedsBaseline_false (h m hm)]
  unfold resolve_goals
  rw [hnb]
  rfl

/-- Witness for the amended C3 at a concrete metric list. -/
theorem threshold_goals_no_baseline_witness :
    resolve_goals [⟨"lat", [⟨"avg", 1, false, some ⟨GoalType.threshold, 3⟩⟩]⟩]
      true (fun _ _ => 7) = ⟨.ok [], false⟩ := by
  apply threshold_goals_no_baseline
  intro m hm s hs g hg
  rw [List.mem_singleton] at hm
  subst hm
  rw [List.mem_singleton] at hs
  subst hs
  injection hg with h
  rw [← h]

/-- Claim C7: goal resolution computes, for baseline `b` and multiplier
`m = 1` if `higher_is_better` else `-1`: `threshold → value`,
`max-degradation → b − m·value`, `min-improvement → b + m·value`,
`percent-max-degradation → b·(1 − m·value/100)`,
`percent-min-improvement → b·(1 + m·value/100)`; in particular a baseline
accuracy of `0.80 = 4/5` with goal `{max-degradation, 0.05 = 1/20,
higher_is_better}` resolves, through the whole of `resolve_goals`, to
`0.75 = 3/4`. -/
theorem goal_resolution_formulas :
    (∀ (b v : ℚ) (hib : Bool) (mName sName : String) (pr : Int),
      resolveSubGoals (fun _ _ => b) mName
          [⟨sName, pr, hib, some ⟨GoalType.threshold, v⟩⟩]
        = .ok [(joint_metric_key mName sName, v)]
      ∧ resolveSubGoals (fun _ _ => b) mName
          [⟨sName, pr, hib, some ⟨GoalType.maxDegradation, v⟩⟩]
        = .ok [(joint_metric_key mName sName,
            b - (if hib then (1 : ℚ) else -1) * v)]
      ∧ resolveSubGoals (fun _ _ => b) mName
          [⟨sName, pr, hib, some ⟨GoalType.minImprovement, v⟩⟩]
        = .ok [(joint_metric_key mName sName,
            b + (if hib then (1 : ℚ) else -1) * v)]
      ∧ resolveSubGoals (fun _ _ => b) mName
          [⟨sName, pr, hib, some ⟨GoalType.percentMaxDegradation, v⟩⟩]
        = .ok [(joint_metric_key mName sName,
            b * (1 - (if hib then (1 : ℚ) else -1) * v / 100))]
      ∧ resolveSubGoals (fun _ _ => b) mName
          [⟨sName, pr, hib, some ⟨GoalType.percentMinImprovement, v⟩⟩]
        = .ok [(joint_metric_key mName sName,
            b * (1 + (if hib then (1 : ℚ) else -1) * v / 100))])
    ∧ resolve_goals [⟨"accuracy", [⟨"accuracy_score", 1, true,
          some ⟨GoalType.maxDegradation, 1/20⟩⟩]⟩] true (fun _ _ => 4/5)
        = ⟨.ok [(joint_metric_key "accuracy" "accuracy_score", 3/4)], true⟩ := by
  constructor
  · intro b v hib mName sName pr
    cases hib <;>
      refine ⟨?_, ?_, ?_, ?_, ?_⟩ <;>
        · simp only [resolveSubGoals, resolved_goal_value]
          try norm_num
  · have hnb : needsBaseline [⟨"accuracy", [⟨"accuracy_score", 1, true,
        some ⟨GoalType.maxDegradation, 1/20⟩⟩]⟩] = true := rfl
    unfold resolve_goals
    rw [hnb]
    simp only [if_true]
    unfold resolveAllGoals resolveSubGoals
    simp only [resolved_goal_value]
    norm_num
    rfl

/-! ## Invariants of the accelerator-spec resolver -/

/-- Every paired provider is marked processed, and any two pairs sharing a
provider are the same pair. -/
def SpecsOK (st : ResolverState) : Prop :=
  (∀ pr ∈ st.specs, pr.2 ∈ st.processed)
  ∧ ∀ pr ∈ st.specs, ∀ qr ∈ st.specs, pr.2 = qr.2 → pr = qr

theorem processEP_inv {d : String} {se : List String} {b : Bool}
    {st : ResolverState} {ep : String} {T : List String} (hep : ep ∈ T)
    (h1 : SpecsOK st) (h2 : ∀ pr ∈ st.specs, pr.2 ∈ T → pr.1 = d) :
    SpecsOK (processEP d se b st ep)
    ∧ (∀ pr ∈ (processEP d se b st ep).specs, pr.2 ∈ T → pr.1 = d)
    ∧ (∀ x ∈ st.processed, x ∈ (processEP d se b st ep).processed) := by
  unfold processEP
  by_cases hsup : ep ∉ se
  · rw [if_pos hsup]
    refine ⟨⟨?_, h1.2⟩, h2, ?_⟩
    · intro pr hpr
      exact List.mem_cons_of_mem _ (h1.1 pr hpr)
    · intro x hx
      exact List.mem_cons_of_mem _ hx
  · rw [if_neg hsup]
    by_cases hskip : ep = "CPUExecutionProvider" ∧ d ≠ "cpu" ∧ b = true
    · rw [if_pos hskip]
      exact ⟨h1, h2, fun _ hx => hx⟩
    · rw [if_neg hskip]
      refine ⟨⟨?_, ?_⟩, ?_, ?_⟩
      · intro pr hpr
        rcases List.mem_append.mp hpr with h | h
        · exact List.mem_cons_of_mem _ (h1.1 pr h)
        · have := List.mem_singleton.mp h
          subst this
          exact List.mem_cons_self _ _
      · intro pr hpr qr hqr heq
        rcases List.mem_append.mp hpr with hp | hp <;>
          rcases List.mem_append.mp hqr with hq | hq
        · exact h1.2 pr hp qr hq heq
        · have hq' := List.mem_singleton.mp hq
          subst hq'
          have hpd : pr.1 = d := h2 pr hp (heq ▸ hep)
          exact Prod.ext hpd heq
        · have hp' := List.mem_singleton.mp hp
          subst hp'
          have hqd : qr.1 = d := h2 qr hq (heq ▸ hep)
          exact (Prod.ext hqd heq.symm).symm
        · have hp' := List.mem_singleton.mp hp
          have hq' := List.mem_singleton.mp hq
          rw [hp', hq']
      · intro pr hpr hprT
        rcases List.mem_append.mp hpr with h | h
        · exact h2 pr h hprT
        · rw [List.mem_singleton.mp h]
      · intro x hx
        exact List.mem_cons_of_mem _ hx

theorem foldl_processEP_inv {d : String} {se : List String} {b : Bool}
    (T : List String) :
    ∀ (l : List String) (st : ResolverState), (∀ e ∈ l, e ∈ T) →
      SpecsOK st → (∀ pr ∈ st.specs, pr.2 ∈ T → pr.1 = d) →
      SpecsOK (l.foldl (processEP d se b) st) := by
  intro l
  induction l with
  | nil => intro st _ h1 _; exact h1
  | cons e rest ih =>
    intro st hsub h1 h2
    have he : e ∈ T := hsub e (List.mem_cons_self _ _)
    have h' := @processEP_inv d se b st e T he h1 h2
    exact ih (processEP d se b st e)
      (fun x hx => hsub x (List.mem_cons_of_mem _ hx)) h'.1 h'.2.1

theorem processDevice_inv (eps : List String) (supported : String → List String)
    (b : Bool) (st : ResolverState) (a : String) (h1 : SpecsOK st) :
    SpecsOK (processDevice eps supported b st a) := by
  unfold processDevice
  apply foldl_processEP_inv (eps.filter fun e => decide (e ∉ st.processed))
  · intro e he; exact he
  · exact h1
  · intro pr hpr hprT
    exfalso
    have hproc := h1.1 pr hpr
    have hnot : pr.2 ∉ st.processed := by
      have := List.of_mem_filter hprT
      simpa using this
    exact hnot hproc

theorem foldl_processDevice_inv (eps : List String)
    (supported : String → List String) (b : Bool) :
    ∀ (accels : List String) (st : ResolverState), SpecsOK st →
      SpecsOK (accels.foldl (processDevice eps supported b) st) := by
  intro accels
  induction accels with
  | nil => intro st h; exact h
  | cons a rest ih =>
    intro st h
    exact ih _ (processDevice_inv eps supported b st a h)

/-- No pair maps `CPUExecutionProvider` to a non-cpu device. -/
def CpuOK (st : ResolverState) : Prop :=
  ∀ pr ∈ st.specs, pr.2 = "CPUExecutionProvider" → pr.1 = "cpu"

theorem processEP_cpu {d : String} {se : List String} {st : ResolverState}
    {ep : String} (h : CpuOK st) : CpuOK (processEP d se true st ep) := by
  unfold processEP
  by_cases hsup : ep ∉ se
  · rw [if_pos hsup]
    exact h
  · rw [if_neg hsup]
    by_cases hskip : ep = "CPUExecutionProvider" ∧ d ≠ "cpu" ∧ (true : Bool) = true
    · rw [if_pos hskip]
      exact h
    · rw [if_neg hskip]
      intro pr hpr hcpu
      rcases List.mem_append.mp hpr with hp | hp
      · exact h pr hp hcpu
      · have hp' := List.mem_singleton.mp hp
        subst hp'
        show d = "cpu"
        by_contra hd
        exact hskip ⟨hcpu, hd, rfl⟩

theorem processDevice_cpu (eps : List String) (supported : String → List String)
    (st : ResolverState) (a : String) (h : CpuOK st) :
    CpuOK (processDevice eps supported true st a) := by
  unfold processDevice
  generalize (eps.filter fun e => decide (e ∉ st.processed)) = l
  induction l generalizing st with
  | nil => exact h
  | cons e rest ih => exact ih _ (processEP_cpu h)

theorem foldl_processDevice_cpu (eps : List String)
    (supported : String → List String) :
    ∀ (accels : List String) (st : ResolverState), CpuOK st →
      CpuOK (accels.foldl (processDevice eps supported true) st) := by
  intro accels
  induction accels with
  | nil => intro st h; exact h
  | cons a rest ih =>
    intro st h
    exact ih _ (processDevice_cpu eps supported st a h)

/-- Claim C5: in the resolved accelerator-spec list, any two entries that
share an execution provider are the same `(device, provider)` pair — a
provider, once paired with or rejected for a device, is never paired with
a different device; `CPUExecutionProvider` is never paired with a non-cpu
device when a cpu device is present in the target's accelerator list; and
an empty resolved list is a fatal construction error. -/
theorem accelerator_spec_resolution (accelerators eps : List String)
    (supported : String → List String) :
    (∀ pr ∈ resolveAcceleratorSpecs accelerators eps supported,
      ∀ qr ∈ resolveAcceleratorSpecs accelerators eps supported,
        pr.2 = qr.2 → pr = qr)
    ∧ ("cpu" ∈ accelerators.map strToLower →
        ∀ pr ∈ resolveAcceleratorSpecs accelerators eps supported,
          pr.2 = "CPUExecutionProvider" → pr.1 = "cpu")
    ∧ (resolveAcceleratorSpecs accelerators eps supported = [] →
        initAcceleratorSpecs accelerators eps supported =
          .error "No valid accelerator specified for target system.") := by
  refine ⟨?_, ?_, ?_⟩
  · have h := foldl_processDevice_inv eps supported
      (decide ("cpu" ∈ accelerators.map strToLower)) accelerators ⟨[], [], []⟩
      ⟨fun pr hpr => absurd hpr (List.not_mem_nil pr),
       fun pr hpr => absurd hpr (List.not_mem_nil pr)⟩
    exact h.2
  · intro hcpu
    have hb : decide ("cpu" ∈ accelerators.map strToLower) = true :=
      decide_eq_true hcpu
    have h := foldl_processDevice_cpu eps supported accelerators ⟨[], [], []⟩
      (fun pr hpr => absurd hpr (List.not_mem_nil pr))
    unfold resolveAcceleratorSpecs
    rw [hb]
    exact h
  · intro hempty
    unfold initAcceleratorSpecs
    rw [if_pos hempty]

/-- Witness for C5 at a concrete configuration: a lone cpu device with the
cpu provider resolves to exactly `("cpu", "CPUExecutionProvider")`, whose
device component the theorem pins to `"cpu"`. -/
theorem accelerator_spec_resolution_witness :
    ("cpu", "CPUExecutionProvider") ∈ resolveAcceleratorSpecs ["cpu"]
        ["CPUExecutionProvider"] (fun _ => ["CPUExecutionProvider"])
    ∧ ("cpu", "CPUExecutionProvider").1 = "cpu" := by
  have hmem : ("cpu", "CPUExecutionProvider") ∈ resolveAcceleratorSpecs ["cpu"]
      ["CPUExecutionProvider"] (fun _ => ["CPUExecutionProvider"]) := by decide
  exact ⟨hmem, (accelerator_spec_resolution ["cpu"] ["CPUExecutionProvider"]
    (fun _ => ["CPUExecutionProvider"])).2.1 (by decide) _ hmem rfl⟩

/-! ## Lemmas for the no-search output materialization -/

theorem append_ne_empty_right (a b : String) (hb : b ≠ "") : a ++ b ≠ "" := by
  intro h
  apply hb
  have hd := congrArg String.data h
  rw [String.data_append] at hd
  have hbd : b.data = [] := (List.append_eq_nil.mp hd).2
  cases b with
  | mk data =>
    simp only at hbd
    rw [hbd]

theorem finalOutputName_truthy (names : List (Option String))
    (engineName : Option String) (spec : String) (hspec : spec ≠ "") :
    truthyStr (finalOutputName names engineName spec) = true := by
  unfold finalOutputName
  have hdefault :
      truthyStr (if truthyStr ((names.getLast?).getD none)
        then (names.getLast?).getD none else some spec) = true := by
    by_cases ht : truthyStr ((names.getLast?).getD none) = true
    · rw [if_pos ht]
      exact ht
    · rw [if_neg ht]
      unfold truthyStr
      exact decide_eq_true hspec
  cases engineName with
  | none => exact hdefault
  | some en =>
    show truthyStr (if en ≠ "" then some (en ++ "_" ++ spec)
      else if truthyStr ((names.getLast?).getD none)
        then (names.getLast?).getD none else some spec) = true
    by_cases hen : en ≠ ""
    · rw [if_pos hen]
      exact decide_eq_true (append_ne_empty_right _ _ hspec)
    · rw [if_neg hen]
      exact hdefault

theorem saveOutputs_concat (names : List (Option String)) (ids : List String)
    (finStr : String) (lastId : String) (save : String → String → Nat)
    (hlen : names.length = ids.length) (hstr : finStr ≠ "") :
    saveOutputs (names ++ [some finStr]) (ids ++ [lastId]) save =
      some (save lastId (finStr ++ "_model")) := by
  unfold saveOutputs
  rw [List.zip_append hlen, List.foldl_append]
  simp only [List.zip_cons_cons, List.zip_nil_right, List.foldl_cons, List.foldl_nil]
  rw [if_pos hstr]

/-- Claim C10: for an unpruned no-search step (one output model id per
executed pass), the terminal pass's output model is always materialized:
when neither the terminal pass's `output_name` nor the engine-level
`output_name` is set, the artifact name defaults to the accelerator spec
string and the model is saved as `<accelerator_spec>_model`, so
`run_no_search` returns a non-`None` output. -/
theorem run_no_search_materializes (registered : List (Option String))
    (engineName : Option String) (spec : String) (ids : List String)
    (save : String → String → Nat)
    (hne : registered ≠ []) (hlen : ids.length = registered.length)
    (hspec : spec ≠ "") :
    (runNoSearchOutput registered engineName spec ids save).isSome = true
    ∧ (engineName = none →
        truthyStr ((registered.getLast?).getD none) = false →
        runNoSearchOutput registered engineName spec ids save =
          some (save ((ids.getLast?).getD "") (spec ++ "_model"))) := by
  have hids : ids ≠ [] := by
    intro h
    apply hne
    rw [h] at hlen
    simp only [List.length_nil] at hlen
    exact List.eq_nil_of_length_eq_zero hlen.symm
  have hidsplit : ids.dropLast ++ [(ids.getLast?).getD ""] = ids := by
    rw [List.getLast?_eq_getLast ids hids]
    exact List.dropLast_concat_getLast hids
  have hnameslen : (passOutputNames registered spec).length = registered.length := by
    unfold passOutputNames
    rw [List.length_map]
  have hlen2 : (passOutputNames registered spec).dropLast.length =
      ids.dropLast.length := by
    rw [List.length_dropLast, List.length_dropLast, hnameslen, hlen]
  obtain ⟨finStr, hfin, hfinne⟩ : ∃ t,
      finalOutputName (passOutputNames registered spec) engineName spec = some t
      ∧ t ≠ "" := by
    have ht := finalOutputName_truthy (passOutputNames registered spec)
      engineName spec hspec
    cases hf : finalOutputName (passOutputNames registered spec) engineName spec with
    | none => rw [hf] at ht; cases ht
    | some t =>
      rw [hf] at ht
      unfold truthyStr at ht
      exact ⟨t, rfl, of_decide_eq_true ht⟩
  have hmain : runNoSearchOutput registered engineName spec ids save =
      some (save ((ids.getLast?).getD "") (finStr ++ "_model")) := by
    show saveOutputs ((passOutputNames registered spec).dropLast ++
        [finalOutputName (passOutputNames registered spec) engineName spec])
        ids save = _
    rw [hfin]
    calc saveOutputs ((passOutputNames registered spec).dropLast ++ [some finStr])
          ids save
        = saveOutputs ((passOutputNames registered spec).dropLast ++ [some finStr])
            (ids.dropLast ++ [(ids.getLast?).getD ""]) save := by rw [hidsplit]
      _ = some (save ((ids.getLast?).getD "") (finStr ++ "_model")) :=
          saveOutputs_concat _ _ _ _ save hlen2 hfinne
  refine ⟨by rw [hmain]; rfl, ?_⟩
  intro hengine hlast
  have hnames_last : (passOutputNames registered spec).getLast?.getD none = none := by
    unfold passOutputNames
    rw [List.getLast?_map]
    cases hrl : registered.getLast? with
    | none => rfl
    | some x =>
      rw [hrl] at hlast
      simp only [Option.getD_some] at hlast
      cases x with
      | none => rfl
      | some nm =>
        have hnm : nm = "" := by
          by_contra hne'
          simp only [truthyStr] at hlast
          rw [decide_eq_true hne'] at hlast
          cases hlast
        simp only [Option.map_some', Option.getD_some]
        show (if nm ≠ "" then some (nm ++ "_" ++ spec) else none) = none
        rw [if_neg (show ¬ nm ≠ "" from fun h => h hnm)]
  have hfin2 : finalOutputName (passOutputNames registered spec) engineName spec =
      some spec := by
    unfold finalOutputName
    rw [hengine, hnames_last]
    rfl
  have hspec_eq : finStr = spec := by
    rw [hfin2] at hfin
    injection hfin with h
    exact h.symm
  rw [hmain, hspec_eq]

/-- Witness for C10 at a concrete step: one pass without an `output_name`,
no engine-level `output_name`; the artifact is saved as
`cpu-CPUExecutionProvider_model` and the returned output is non-`None`. -/
theorem run_no_search_materializes_witness :
    (runNoSearchOutput [none] none "cpu-CPUExecutionProvider" ["0_P"]
        (fun _ _ => 42)).isSome = true
    ∧ runNoSearchOutput [none] none "cpu-CPUExecutionProvider" ["0_P"]
        (fun _ _ => 42) = some 42 := by
  have h := run_no_search_materializes [none] none "cpu-CPUExecutionProvider"
    ["0_P"] (fun _ _ => 42) (by simp) (by simp) (by simp)
  exact ⟨h.1, h.2 rfl (by rfl)⟩

end OliveEngine
